import Mathlib

/-!
Verification of the core semantics of the tecc/brainfuck interpreter.

The execution engine is embedded from src/src/runtime.rs (the engine used by
main.rs: u8 cells, Vec-backed store), the banded cell store from
src/src/runtime/context.rs, and the command tokenizer from
src/src/interactive/command.rs.  Machine integers are modelled as Nat with
explicit wrapping where the Rust code wraps; operations that can panic in
Rust (usize underflow, byte slicing off a char boundary, read from an empty
input, the todo macro) are modelled as Option-returning functions where
none marks the panic.
-/

namespace BrainfuckVerif

/-- The 8 instructions of runtime.rs (enum Instruction). -/
inductive Instruction where
  | IncrementDataPointer
  | DecrementDataPointer
  | IncrementData
  | DecrementData
  | OutputData
  | AcceptData
  | JumpForwardsIfZero
  | JumpBackwardsIfNonzero
deriving DecidableEq

/-- Instruction::from_char. -/
def Instruction.fromChar (ch : Char) : Option Instruction :=
  match ch with
  | '>' => some .IncrementDataPointer
  | '<' => some .DecrementDataPointer
  | '+' => some .IncrementData
  | '-' => some .DecrementData
  | '.' => some .OutputData
  | ',' => some .AcceptData
  | '[' => some .JumpForwardsIfZero
  | ']' => some .JumpBackwardsIfNonzero
  | _ => none

/-- LoadedInstruction: an instruction plus its character index in the source. -/
structure LoadedInstruction where
  instruction : Instruction
  source_position : Nat
deriving DecidableEq

/-- RuntimeContext of runtime.rs: u8 cells (values < 256 as Nat) and a data
pointer.  The Vec capacity hint is irrelevant to semantics. -/
structure RuntimeContext where
  data : List Nat
  data_pointer : Nat
deriving DecidableEq

/-- The resize performed by RuntimeContext::get_cell when the store is too
short: grow to data_pointer + 1, zero-filling. -/
def RuntimeContext.resized (c : RuntimeContext) : RuntimeContext :=
  if c.data.length ≤ c.data_pointer then
    { c with data := c.data ++ List.replicate (c.data_pointer + 1 - c.data.length) 0 }
  else c

/-- RuntimeContext::read_cell: 0 beyond the current length, without growing. -/
def RuntimeContext.readCell (c : RuntimeContext) : Nat :=
  if c.data.length ≤ c.data_pointer then 0 else c.data.getD c.data_pointer 0

/-- RuntimeContext::process_cell: read-modify-write through get_cell. -/
def RuntimeContext.processCell (c : RuntimeContext) (f : Nat → Nat) : RuntimeContext :=
  let c' := c.resized
  { c' with data := c'.data.set c'.data_pointer (f (c'.data.getD c'.data_pointer 0)) }

/-- Writing an input byte to the current cell (execute_instruction, AcceptData). -/
def RuntimeContext.setCell (c : RuntimeContext) (v : Nat) : RuntimeContext :=
  let c' := c.resized
  { c' with data := c'.data.set c'.data_pointer v }

/-- Script of runtime.rs: source, loaded instructions, instruction pointer and
cycle counter.  The injected read/write callbacks are modelled as input and
output streams on the machine state below. -/
structure Script where
  source : List Char
  instructions : List LoadedInstruction
  instruction_pointer : Nat
  cycles : Nat
deriving DecidableEq

/-- The loading scan of Script::new: chars().enumerate(), keeping only
recognized characters together with their character index. -/
def loadInstructions : List Char → Nat → List LoadedInstruction
  | [], _ => []
  | ch :: rest, u =>
    match Instruction.fromChar ch with
    | none => loadInstructions rest (u + 1)
    | some i => ⟨i, u⟩ :: loadInstructions rest (u + 1)

/-- Script::new. -/
def Script.new (source : List Char) : Script :=
  { source := source
    instructions := loadInstructions source 0
    instruction_pointer := 0
    cycles := 0 }

/-- Script::instruction. -/
def Script.instruction (s : Script) : Option Instruction :=
  (s.instructions.get? s.instruction_pointer).map (·.instruction)

/-- Script::has_remaining_instructions. -/
def Script.hasRemainingInstructions (s : Script) : Bool :=
  s.instruction_pointer < s.instructions.length

/-- The bare instruction stream of a script. -/
def instrsOf (s : Script) : List Instruction :=
  s.instructions.map (·.instruction)

/-- The loop of Script::jump_forwards on the bare instruction list: advance
the pointer, return (true, pointer) on a backward-jump instruction at depth
0, adjust depth on brackets, and return (false, pointer) when the pointer
runs past the end. -/
def jumpForwardsGo (l : List Instruction) : Nat → Nat → Nat → Bool × Nat
  | 0, ip, _ => (false, ip)
  | fuel + 1, ip, depth =>
    match l.get? (ip + 1) with
    | none => (false, ip + 1)
    | some c =>
      if c = .JumpBackwardsIfNonzero then
        if depth = 0 then (true, ip + 1) else jumpForwardsGo l fuel (ip + 1) (depth - 1)
      else if c = .JumpForwardsIfZero then jumpForwardsGo l fuel (ip + 1) (depth + 1)
      else jumpForwardsGo l fuel (ip + 1) depth

/-- Script::jump_forwards on the bare instruction list, entering the loop
with its variant l.length - ip as the fuel: the loop guard ip < len holds
exactly when that fuel is nonzero, and each iteration advances the pointer
by one while burning one fuel, so the invariant is maintained. -/
def jumpForwardsAux (l : List Instruction) (ip depth : Nat) : Bool × Nat :=
  jumpForwardsGo l (l.length - ip) ip depth

/-- The loop of Script::jump_backwards.  The Rust loop condition
`instruction_pointer >= 0` is vacuously true for usize, so decrementing the
pointer at 0 underflows: that is the none case (a debug-build panic; in
release the pointer wraps to 2^64 - 1).  On a forward-jump instruction at
depth 0 the pointer is re-incremented and the search succeeds. -/
def jumpBackwardsAux (l : List Instruction) : Nat → Nat → Option (Bool × Nat)
  | 0, _ => none
  | ip + 1, depth =>
    match l.get? ip with
    | none => some (false, ip)
    | some c =>
      if c = .JumpForwardsIfZero then
        if depth = 0 then some (true, ip + 1) else jumpBackwardsAux l ip (depth - 1)
      else if c = .JumpBackwardsIfNonzero then jumpBackwardsAux l ip (depth + 1)
      else jumpBackwardsAux l ip depth

/-- Full machine state: script plus cell store, with the read and write
callbacks modelled as an input stream and an output accumulator. -/
structure MachineState where
  script : Script
  ctx : RuntimeContext
  input : List Nat
  output : List Nat
deriving DecidableEq

/-- Reading the store at an arbitrary address (missing cells read as 0). -/
def MachineState.cellAt (m : MachineState) (a : Nat) : Nat :=
  m.ctx.data.getD a 0

/-- Script::execute_instruction.  none models a panic: data-pointer underflow
on DecrementDataPointer, input exhausted on AcceptData, or instruction
pointer underflow inside jump_backwards.  Cell arithmetic is
overflowing_add/overflowing_sub on u8, i.e. mod 256. -/
def executeInstruction (m : MachineState) : Option MachineState :=
  match m.script.instruction with
  | none => some m
  | some instr =>
    let step? : Option (MachineState × Bool) :=
      match instr with
      | .IncrementDataPointer =>
        some ({ m with ctx := { m.ctx with data_pointer := m.ctx.data_pointer + 1 } }, true)
      | .DecrementDataPointer =>
        if m.ctx.data_pointer = 0 then none
        else some ({ m with ctx := { m.ctx with data_pointer := m.ctx.data_pointer - 1 } }, true)
      | .IncrementData =>
        some ({ m with ctx := m.ctx.processCell (fun v => (v + 1) % 256) }, true)
      | .DecrementData =>
        some ({ m with ctx := m.ctx.processCell (fun v => (v + 255) % 256) }, true)
      | .OutputData =>
        some ({ m with output := m.output ++ [m.ctx.readCell] }, true)
      | .AcceptData =>
        match m.input with
        | [] => none
        | x :: rest => some ({ m with ctx := m.ctx.setCell x, input := rest }, true)
      | .JumpForwardsIfZero =>
        if m.ctx.readCell = 0 then
          let r := jumpForwardsAux (instrsOf m.script) m.script.instruction_pointer 0
          some ({ m with script := { m.script with instruction_pointer := r.2 } }, false)
        else some (m, true)
      | .JumpBackwardsIfNonzero =>
        if m.ctx.readCell = 0 then some (m, true)
        else
          match jumpBackwardsAux (instrsOf m.script) m.script.instruction_pointer 0 with
          | none => none
          | some r => some ({ m with script := { m.script with instruction_pointer := r.2 } }, false)
    match step? with
    | none => none
    | some (m', next) =>
      let s := m'.script
      let s' := if next then { s with instruction_pointer := s.instruction_pointer + 1 } else s
      some { m' with script := { s' with cycles := s'.cycles + 1 } }

/-- Iterated stepping (a halted machine steps to itself). -/
def runFuel : Nat → MachineState → Option MachineState
  | 0, m => some m
  | n + 1, m => (executeInstruction m).bind (runFuel n)

/-- A machine loaded from source with an all-zero store and no input. -/
def initialMachine (source : List Char) : MachineState :=
  { script := Script.new source, ctx := ⟨[], 0⟩, input := [], output := [] }

/-! The banded cell store of src/src/runtime/context.rs.  RuntimeContext is
generic over an unsigned CellType T; cell values are modelled as Nat.  The
band arithmetic never exceeds the values already present plus (max - min),
so no modular reduction at the native width is reachable and the Nat model
is exact for every instantiated T. -/

/-- RuntimeContext of runtime/context.rs: data, data pointer and the
configured closed value band.  The read/write/refresh callbacks live on the
machine state below. -/
structure RuntimeContextT where
  data : List Nat
  data_pointer : Nat
  min_cell_value : Nat
  max_cell_value : Nat
deriving DecidableEq

/-- The resize of RuntimeContext::get_cell(i). -/
def RuntimeContextT.resizedAt (c : RuntimeContextT) (i : Nat) : RuntimeContextT :=
  if c.data.length ≤ i then
    { c with data := c.data ++ List.replicate (i + 1 - c.data.length) 0 }
  else c

/-- RuntimeContext::read_cell(i). -/
def RuntimeContextT.readCellAt (c : RuntimeContextT) (i : Nat) : Nat :=
  if c.data.length ≤ i then 0 else c.data.getD i 0

/-- RuntimeContext::increment_cell(i): wrap at the configured band, not at
the native width of T. -/
def RuntimeContextT.incrementCell (c : RuntimeContextT) (i : Nat) : RuntimeContextT :=
  let c' := c.resizedAt i
  let v := c'.data.getD i 0
  let v' := if c.max_cell_value ≤ v then c.min_cell_value else v + 1
  { c' with data := c'.data.set i v' }

/-- RuntimeContext::decrement_cell(i). -/
def RuntimeContextT.decrementCell (c : RuntimeContextT) (i : Nat) : RuntimeContextT :=
  let c' := c.resizedAt i
  let v := c'.data.getD i 0
  let v' := if v ≤ c.min_cell_value then c.max_cell_value else v - 1
  { c' with data := c'.data.set i v' }

/-- Writing an absolute value at index i (get_cell write, used by set-data). -/
def RuntimeContextT.setCellAt (c : RuntimeContextT) (i : Nat) (v : Nat) : RuntimeContextT :=
  let c' := c.resizedAt i
  { c' with data := c'.data.set i v }

/-- First loop of fix_cell: while the cell exceeds max, subtract the band
width diff.  The subtraction cannot underflow while min <= max, since then
diff <= max < cell.  Fuel exhaustion (none) models divergence of the loop,
which happens exactly when diff = 0 and the cell is above max. -/
def fixSubLoop (maxv diff : Nat) : Nat → Nat → Option Nat
  | 0, _ => none
  | fuel + 1, v => if maxv < v then fixSubLoop maxv diff fuel (v - diff) else some v

/-- Second loop of fix_cell: while the cell is below min, add the band
width diff.  The addition cannot exceed the native width since the result
stays below max.  Fuel exhaustion models divergence (diff = 0, cell below
min). -/
def fixAddLoop (minv diff : Nat) : Nat → Nat → Option Nat
  | 0, _ => none
  | fuel + 1, v => if v < minv then fixAddLoop minv diff fuel (v + diff) else some v

/-- The value-level body of RuntimeContext::fix_cell.  When max < min the
computation of diff = max - min underflows the unsigned cell type, a
debug-build panic, modelled as none.  The fuel bounds strictly exceed the
number of iterations of each loop whenever the loop terminates (each
subtraction removes at least 1 while v exceeds maxv; each addition adds at
least 1 while v is below minv). -/
def fixVal (minv maxv v : Nat) : Option Nat :=
  if maxv < minv then none
  else (fixSubLoop maxv (maxv - minv) (v + 1) v).bind (fixAddLoop minv (maxv - minv) (minv + 1))

/-- RuntimeContext::fix_cell(i): clamp the cell at i into the band by
repeated addition/subtraction of the band width. -/
def RuntimeContextT.fixCell (c : RuntimeContextT) (i : Nat) : Option RuntimeContextT :=
  let c' := c.resizedAt i
  match fixVal c.min_cell_value c.max_cell_value (c'.data.getD i 0) with
  | none => none
  | some w => some { c' with data := c'.data.set i w }

/-- Modelled from the spec: the execution engine paired with the banded
RuntimeContext of runtime/context.rs is not present under src/ — the Script
of src/src/runtime.rs is the older u8 engine, while src/src/interactive.rs
calls a Script::execute_instruction taking this banded context.  Step
semantics follow spec section 4.2 (identical in shape to the old engine),
with data increment/decrement delegated to CellStore's wrapping
increment_cell/decrement_cell at data_pointer, taken verbatim from
src/src/runtime/context.rs above. -/
structure BandedMachine where
  instructions : List LoadedInstruction
  instruction_pointer : Nat
  cycles : Nat
  ctx : RuntimeContextT
  input : List Nat
  output : List Nat
deriving DecidableEq

/-- The current instruction of a banded machine. -/
def BandedMachine.instruction (m : BandedMachine) : Option Instruction :=
  (m.instructions.get? m.instruction_pointer).map (·.instruction)

/-- Modelled from the spec: one step of the banded engine (see BandedMachine).
Pointer decrement at 0, exhausted input, and jump_backwards underflow are
panics (none), as in the old engine. -/
def stepBanded (m : BandedMachine) : Option BandedMachine :=
  match m.instruction with
  | none => some m
  | some instr =>
    let step? : Option (BandedMachine × Bool) :=
      match instr with
      | .IncrementDataPointer =>
        some ({ m with ctx := { m.ctx with data_pointer := m.ctx.data_pointer + 1 } }, true)
      | .DecrementDataPointer =>
        if m.ctx.data_pointer = 0 then none
        else some ({ m with ctx := { m.ctx with data_pointer := m.ctx.data_pointer - 1 } }, true)
      | .IncrementData =>
        some ({ m with ctx := m.ctx.incrementCell m.ctx.data_pointer }, true)
      | .DecrementData =>
        some ({ m with ctx := m.ctx.decrementCell m.ctx.data_pointer }, true)
      | .OutputData =>
        some ({ m with output := m.output ++ [m.ctx.readCellAt m.ctx.data_pointer] }, true)
      | .AcceptData =>
        match m.input with
        | [] => none
        | x :: rest =>
          some ({ m with ctx := m.ctx.setCellAt m.ctx.data_pointer x, input := rest }, true)
      | .JumpForwardsIfZero =>
        if m.ctx.readCellAt m.ctx.data_pointer = 0 then
          let r := jumpForwardsAux (m.instructions.map (·.instruction)) m.instruction_pointer 0
          some ({ m with instruction_pointer := r.2 }, false)
        else some (m, true)
      | .JumpBackwardsIfNonzero =>
        if m.ctx.readCellAt m.ctx.data_pointer = 0 then some (m, true)
        else
          match jumpBackwardsAux (m.instructions.map (·.instruction)) m.instruction_pointer 0 with
          | none => none
          | some r => some ({ m with instruction_pointer := r.2 }, false)
    match step? with
    | none => none
    | some (m', next) =>
      let m'' := if next then { m' with instruction_pointer := m'.instruction_pointer + 1 } else m'
      some { m'' with cycles := m''.cycles + 1 }

/-! The command tokenizer of src/src/interactive/command.rs.  Strings are
modelled as lists of chars; segment start/stop indices are char indices
(the Rust byte indices are order-isomorphic to them on every slice the
parser takes, since all its splits happen on char boundaries).  The one
place where raw byte indices matter — the byte slicing inside parse_number —
is modelled byte-faithfully below.  The filesystem and the humantime
duration parser are external collaborators, abstracted as an Env record.
Keyword comparisons go through uncased's UncasedStr, i.e. ASCII
case-insensitive equality. -/

/-- Unicode White_Space, the predicate behind Rust's char::is_whitespace. -/
def isRustWs (c : Char) : Bool :=
  c.toNat == 0x20 || c.toNat == 0x9 || c.toNat == 0xA || c.toNat == 0xB ||
  c.toNat == 0xC || c.toNat == 0xD || c.toNat == 0x85 || c.toNat == 0xA0 ||
  c.toNat == 0x1680 || (0x2000 ≤ c.toNat && c.toNat ≤ 0x200A) ||
  c.toNat == 0x2028 || c.toNat == 0x2029 || c.toNat == 0x202F ||
  c.toNat == 0x205F || c.toNat == 0x3000

/-- ASCII lowercasing of one char (u8::to_ascii_lowercase, per byte). -/
def asciiLower (c : Char) : Char :=
  if 'A' ≤ c ∧ c ≤ 'Z' then Char.ofNat (c.toNat + 32) else c

/-- UncasedStr equality: ASCII case-insensitive string equality. -/
def uncasedEq (a b : List Char) : Bool :=
  a.map asciiLower == b.map asciiLower

/-- UncasedStr::new(choice).starts_with(content). -/
def uncasedStarts (content choice : List Char) : Bool :=
  (content.map asciiLower).isPrefixOf (choice.map asciiLower)

/-- The UTF-8 byte width of a char. -/
def utf8SizeC (c : Char) : Nat :=
  if c.toNat < 0x80 then 1 else if c.toNat < 0x800 then 2
  else if c.toNat < 0x10000 then 3 else 4

/-- The UTF-8 byte length of a string. -/
def utf8Len (cs : List Char) : Nat :=
  (cs.map utf8SizeC).sum

/-- The chars covering the first k bytes of a string: none when k is not a
char boundary (Rust str slicing panics there) or exceeds the byte length. -/
def byteTakeChars : List Char → Nat → Option (List Char)
  | _, 0 => some []
  | [], _ + 1 => none
  | c :: rest, k + 1 =>
    if k + 1 < utf8SizeC c then none
    else (byteTakeChars rest (k + 1 - utf8SizeC c)).map (c :: ·)

/-- The chars after the first k bytes of a string: none when k is not a char
boundary or exceeds the byte length. -/
def byteDropChars : List Char → Nat → Option (List Char)
  | cs, 0 => some cs
  | [], _ + 1 => none
  | c :: rest, k + 1 =>
    if k + 1 < utf8SizeC c then none
    else byteDropChars rest (k + 1 - utf8SizeC c)

/-- Validity tag of a command segment (CommandPartState). -/
inductive CommandPartState where
  | Ok
  | Ignored
  | Autocomplete (suggestion : List Char)
  | Invalid (reason : Option String)
deriving DecidableEq

/-- CommandPart: a sub-range of the command string (start and stop are the
source's start and end indices, as char indices) with a validity tag. -/
structure CommandPart where
  source : List Char
  start : Nat
  stop : Nat
  state : CommandPartState
deriving DecidableEq

/-- CommandPart::content. -/
def CommandPart.content (p : CommandPart) : List Char :=
  (p.source.take p.stop).drop p.start

/-- CommandPart::len. -/
def CommandPart.len (p : CommandPart) : Nat :=
  p.stop - p.start

/-- CommandPart::ok: the whole string, state Ok. -/
def CommandPart.ok (s : List Char) : CommandPart :=
  { source := s, start := 0, stop := s.length, state := .Ok }

/-- CommandPart::trim_start: advance start to the first non-whitespace char
of the content, or collapse to the empty range at stop. -/
def CommandPart.trimStart (p : CommandPart) : CommandPart :=
  match p.content.findIdx? (fun c => !(isRustWs c)) with
  | some off => { p with start := p.start + off }
  | none => { p with start := p.stop }

/-- CommandPart::split_whitespace: first token (state Ok) and, when present
and nonempty after trimming, the rest (state Ignored). -/
def CommandPart.splitWhitespace (p : CommandPart) : CommandPart × Option CommandPart :=
  let first : CommandPart := { source := p.source, start := p.start, stop := p.stop, state := .Ok }
  match p.content.findIdx? isRustWs with
  | some splitPoint =>
    let first := { first with stop := p.start + splitPoint }
    let second := CommandPart.trimStart
      { source := p.source, start := p.start + splitPoint, stop := p.stop, state := .Ignored }
    if 0 < second.len then (first, some second) else (first, none)
  | none => (first, none)

/-- CommandPart::autocomplete_uncased: attach the first choice the content
is an uncased prefix of; otherwise leave the part unchanged. -/
def CommandPart.autocompleteUncased (p : CommandPart) (choices : List (List Char)) : CommandPart :=
  match choices.find? (fun choice => uncasedStarts p.content choice) with
  | some choice => { p with state := .Autocomplete choice }
  | none => p

/-- TargetVariable of command.rs. -/
inductive TargetVariable where
  | InstructionPointer
  | DataPointer
  | Data
  | Speed
  | Bound
deriving DecidableEq

/-- TargetVariable::from_str (uncased comparisons; the two-word names can
never match a whitespace-split token, reproducing the source). -/
def TargetVariable.fromStr (s : List Char) : Option TargetVariable :=
  if uncasedEq s "instruction pointer".data || uncasedEq s "ip".data then some .InstructionPointer
  else if uncasedEq s "data pointer".data || uncasedEq s "dp".data then some .DataPointer
  else if uncasedEq s "data".data || uncasedEq s "d".data then some .Data
  else if uncasedEq s "speed".data then some .Speed
  else if uncasedEq s "bound".data then some .Bound
  else none

/-- AUTOCOMPLETE_COMMAND. -/
def AUTOCOMPLETE_COMMAND : List (List Char) :=
  ["start".data, "pause".data, "set".data, "load".data, "quit".data, "execute".data]

/-- AUTOCOMPLETE_SET_VARIABLE. -/
def AUTOCOMPLETE_SET_VARIABLE : List (List Char) :=
  ["instruction pointer".data, "ip".data, "data pointer".data, "dp".data,
   "data".data, "d".data, "speed".data, "bound".data]

/-- Command of command.rs, with T instantiated as in interactive.rs (u64);
Duration modelled as a Nat, PathBuf as the path string. -/
inductive Command where
  | Start
  | Pause
  | SetInstructionPointer (idx : Nat)
  | SetDataPointer (idx : Nat)
  | SetData (idx : Option Nat) (value : Nat)
  | SetSpeed (speed : Nat)
  | SetBounds (lower upper : Nat)
  | LoadScriptFromFile (path : List Char)
  | Quit
deriving DecidableEq

/-- CommandResult of command.rs. -/
inductive CommandResult where
  | Parsed (parts : List CommandPart) (command : Command)
  | CannotContinue (parts : List CommandPart)
  | TooShort (parts : List CommandPart) (message : Option String)
deriving DecidableEq

/-- The single-quote character as a string, for the format! messages. -/
def sq : String := String.mk [Char.ofNat 39]

/-- Message of the unknown-variable error. -/
def unknownVariableMsg (p : CommandPart) : String :=
  "unknown variable " ++ sq ++ String.mk p.content ++ sq

/-- Message of the unrecognised-command error. -/
def unrecognisedMsg (p : CommandPart) : String :=
  "unrecognised command " ++ sq ++ String.mk p.content ++ sq

/-- Message of the expected-equals error. -/
def expectedEqMsg (p : CommandPart) : String :=
  "expected " ++ sq ++ "=" ++ sq ++ ", got " ++ sq ++ String.mk p.content ++ sq

/-- u64::MAX, the overflow bound of from_str_radix for u64 and (64-bit)
usize alike. -/
def U64MAX : Nat := 2 ^ 64 - 1

/-- char::to_digit(radix). -/
def digitVal (c : Char) (radix : Nat) : Option Nat :=
  let d? : Option Nat :=
    if '0' ≤ c ∧ c ≤ '9' then some (c.toNat - '0'.toNat)
    else if 'a' ≤ c ∧ c ≤ 'z' then some (c.toNat - 'a'.toNat + 10)
    else if 'A' ≤ c ∧ c ≤ 'Z' then some (c.toNat - 'A'.toNat + 10)
    else none
  match d? with
  | some d => if d < radix then some d else none
  | none => none

/-- The digit-accumulation loop of from_str_radix, with the u64 overflow
check (checked_mul/checked_add). -/
def fromStrRadixGo (radix : Nat) : List Char → Nat → Option Nat
  | [], acc => some acc
  | c :: rest, acc =>
    match digitVal c radix with
    | none => none
    | some d =>
      let acc' := acc * radix + d
      if U64MAX < acc' then none else fromStrRadixGo radix rest acc'

/-- u64::from_str_radix / usize::from_str_radix: empty input is an error; a
leading plus sign is stripped (but bare plus is an error); a minus sign is
not accepted for unsigned types and fails as a non-digit. -/
def fromStrRadix (cs : List Char) (radix : Nat) : Option Nat :=
  match cs with
  | [] => none
  | c :: rest =>
    let digits := if c = '+' then rest else cs
    match digits with
    | [] => none
    | _ => fromStrRadixGo radix digits 0

/-- The body of parse_number on the token's text.  The two eager byte
slices, first_two and last_one, are taken at raw byte offsets min(2, len)
and len - 1; on a non-boundary offset the slice panics (outer none).  The
inner Option is the Ok/Err result of from_str_radix after radix-prefix or
h-suffix stripping. -/
def parseNumberCore (cs : List Char) : Option (Option Nat) :=
  let len := utf8Len cs
  match byteTakeChars cs (min 2 len) with
  | none => none
  | some firstTwo =>
    match byteDropChars cs (len - 1) with
    | none => none
    | some lastOne =>
      let rs : Nat × List Char :=
        if uncasedEq firstTwo "0b".data then (2, cs.drop 2)
        else if uncasedEq firstTwo "0o".data then (8, cs.drop 2)
        else if uncasedEq firstTwo "0x".data then (16, cs.drop 2)
        else if uncasedEq lastOne "h".data then (16, cs.dropLast)
        else (10, cs)
      some (fromStrRadix rs.2 rs.1)

/-- parse_number: on a parse error the segment is marked Invalid; a panic
inside the byte slicing propagates as none. -/
def parseNumber (p : CommandPart) : Option (CommandPart × Option Nat) :=
  match parseNumberCore p.content with
  | none => none
  | some none => some ({ p with state := .Invalid (some "not a valid number") }, none)
  | some (some n) => some (p, some n)

/-- External collaborators of the tokenizer: filesystem queries of the load
branch (current_dir().join, exists, is_file, and the read_dir-based
suggestion search of try_autocomplete together with its PathBuf
re-assembly), and the humantime duration parser. -/
structure Env where
  currentDirJoin : List Char → List Char
  pathExists : List Char → Bool
  isFile : List Char → Bool
  loadSuggestion : List Char → Bool → List Char → Option (List Char)
  parseDuration : List Char → Except String Nat

/-- An Env on which no path exists and no duration parses. -/
def envEmpty : Env :=
  { currentDirJoin := id
    pathExists := fun _ => false
    isFile := fun _ => false
    loadSuggestion := fun _ _ _ => none
    parseDuration := fun _ => .error "" }

/-- expect_equals_part.  The let-else pattern in the source is irrefutable,
so its else arm is dead and the returned flag is always true; a token other
than the equals sign is marked Invalid (and optionally autocompleted) but
parsing continues. -/
def expectEqualsPart (parts : List CommandPart) (remaining : CommandPart)
    (autocomplete : Bool) : List CommandPart × Bool × Option CommandPart :=
  let sw := remaining.splitWhitespace
  let equalsPart := { sw.1 with state := CommandPartState.Ok }
  if equalsPart.content = "=".data then (parts ++ [equalsPart], true, sw.2)
  else
    let ep := { equalsPart with state := .Invalid (some (expectedEqMsg equalsPart)) }
    let ep := if autocomplete then ep.autocompleteUncased ["=".data] else ep
    (parts ++ [ep], true, sw.2)

/-- The common value parse at the end of the set-data branch: value token,
then Parsed or CannotContinue, pushing the trailing rest either way. -/
def parseSetDataValue (parts : List CommandPart) (idx : Option Nat)
    (remaining : CommandPart) : Option CommandResult :=
  let sw := remaining.splitWhitespace
  match parseNumber sw.1 with
  | none => none
  | some (vp, none) =>
    let parts := parts ++ [vp]
    let parts := match sw.2 with | some r => parts ++ [r] | none => parts
    some (.CannotContinue parts)
  | some (vp, some value) =>
    let parts := parts ++ [vp]
    let parts := match sw.2 with | some r => parts ++ [r] | none => parts
    some (.Parsed parts (.SetData idx value))

/-- The TargetVariable::Data branch of parse_command.  When the index token
is absent the source autocompletes the undivided remainder against the
equals sign unconditionally and stops. -/
def parseSetData (parts : List CommandPart) (remaining : CommandPart)
    (autocomplete : Bool) : Option CommandResult :=
  match remaining.splitWhitespace with
  | (_, none) =>
    let rem := remaining.autocompleteUncased ["=".data]
    some (.CannotContinue (parts ++ [rem]))
  | (idxPart, some rem2) =>
    if idxPart.content = "=".data then
      parseSetDataValue (parts ++ [idxPart]) none rem2
    else
      match parseNumber idxPart with
      | none => none
      | some (ip', none) => some (.CannotContinue (parts ++ [ip']))
      | some (ip', some num) =>
        let eq3 := expectEqualsPart (parts ++ [ip']) rem2 autocomplete
        match eq3.2.2 with
        | none => some (.TooShort eq3.1 (some "expecting value"))
        | some rem3 => parseSetDataValue eq3.1 (some num) rem3

/-- The non-Data set branches of parse_command (after the variable name):
equals sign, then the value.  On success the value segment itself is not
pushed for the pointer targets, mirroring the source; Data is unreachable
here and Bound hits the todo! panic. -/
def parseSetOther (env : Env) (tv : TargetVariable) (parts : List CommandPart)
    (remaining : CommandPart) (autocomplete : Bool) : Option CommandResult :=
  let eq3 := expectEqualsPart parts remaining autocomplete
  match eq3.2.2 with
  | none => some (.TooShort eq3.1 (some "expecting value"))
  | some remaining =>
    let parts := eq3.1
    match tv with
    | .InstructionPointer =>
      let sw := remaining.splitWhitespace
      match parseNumber sw.1 with
      | none => none
      | some (vp, none) => some (.CannotContinue (parts ++ [vp]))
      | some (_, some idx) =>
        let parts := match sw.2 with | some r => parts ++ [r] | none => parts
        some (.Parsed parts (.SetInstructionPointer idx))
    | .DataPointer =>
      let sw := remaining.splitWhitespace
      match parseNumber sw.1 with
      | none => none
      | some (vp, none) => some (.CannotContinue (parts ++ [vp]))
      | some (_, some idx) =>
        let parts := match sw.2 with | some r => parts ++ [r] | none => parts
        some (.Parsed parts (.SetDataPointer idx))
    | .Data => none
    | .Speed =>
      let sp := { remaining with state := CommandPartState.Ok }
      match env.parseDuration sp.content with
      | .error e => some (.CannotContinue (parts ++ [{ sp with state := .Invalid (some e) }]))
      | .ok speed => some (.Parsed (parts ++ [sp]) (.SetSpeed speed))
    | .Bound => none

/-- The set branch of parse_command. -/
def parseSetCommand (env : Env) (setPart : CommandPart) (remaining : Option CommandPart)
    (autocomplete : Bool) : Option CommandResult :=
  let parts := [setPart]
  match remaining with
  | none => some (.TooShort parts (some "variable name required"))
  | some remaining =>
    let sw := remaining.splitWhitespace
    let variablePart := sw.1
    match TargetVariable.fromStr variablePart.content with
    | none =>
      let vp := { variablePart with state := .Invalid (some (unknownVariableMsg variablePart)) }
      let vp := if autocomplete then vp.autocompleteUncased AUTOCOMPLETE_SET_VARIABLE else vp
      let parts := parts ++ [vp]
      let parts := match sw.2 with | some rem => parts ++ [rem] | none => parts
      some (.CannotContinue parts)
    | some tv =>
      let parts := parts ++ [variablePart]
      match sw.2 with
      | none =>
        some (.TooShort parts (some (match tv with
          | .Data => "expecting index or ="
          | _ => "expecting =")))
      | some remaining =>
        match tv with
        | .Data => parseSetData parts remaining autocomplete
        | tv => parseSetOther env tv parts remaining autocomplete

/-- The load branch of parse_command: the path segment is validated against
the filesystem and may end up Invalid or Autocomplete, but a Parsed result
carrying the path text is returned regardless. -/
def parseLoadCommand (env : Env) (loadPart : CommandPart) (remaining : Option CommandPart)
    (autocomplete : Bool) : Option CommandResult :=
  let parts := [{ loadPart with state := CommandPartState.Ok }]
  match remaining with
  | none => some (.TooShort parts (some "expected file name"))
  | some filePart0 =>
    let filePart := { filePart0 with state := CommandPartState.Ok }
    let filePath := env.currentDirJoin filePart.content
    let filePart :=
      if !(env.pathExists filePath) then
        { filePart with state := .Invalid (some "file not found") }
      else if !(env.isFile filePath) then
        { filePart with state := .Invalid (some "path does not refer to a file") }
      else filePart
    let filePart :=
      if autocomplete then
        let atEnd := filePart.content.getLast? == some '/'
        match env.loadSuggestion filePath atEnd filePart.content with
        | some suggestion => { filePart with state := .Autocomplete suggestion }
        | none => filePart
      else filePart
    let path := filePart.content
    some (.Parsed (parts ++ [filePart]) (.LoadScriptFromFile path))

/-- parse_command.  none models a panic (byte slicing off a char boundary in
parse_number, or the todo! of the bound branch); every non-panicking path
returns a structured CommandResult. -/
def parseCommand (env : Env) (cmdStr : List Char) (autocomplete : Bool) : Option CommandResult :=
  if cmdStr.length < 1 then some (.TooShort [] none)
  else
    let mainPart := CommandPart.ok cmdStr
    let sw := mainPart.splitWhitespace
    let commandPart := sw.1
    if uncasedEq commandPart.content "start".data then
      some (.Parsed [commandPart] .Start)
    else if uncasedEq commandPart.content "pause".data then
      some (.Parsed [commandPart] .Pause)
    else if uncasedEq commandPart.content "set".data then
      parseSetCommand env commandPart sw.2 autocomplete
    else if uncasedEq commandPart.content "load".data then
      parseLoadCommand env commandPart sw.2 autocomplete
    else if uncasedEq commandPart.content "quit".data then
      some (.Parsed [{ commandPart with state := CommandPartState.Ok }] .Quit)
    else
      let cp := { commandPart with state := .Invalid (some (unrecognisedMsg commandPart)) }
      let cp := if autocomplete then cp.autocompleteUncased AUTOCOMPLETE_COMMAND else cp
      some (.CannotContinue [cp])

/-! Declarative bracket matching, for relating the jump loops to the spec:
a position j forward-matches the bracket at i when j holds a backward-jump
instruction and the backward-jump and forward-jump instructions strictly
between i and j are balanced. -/

/-- Number of occurrences of instruction c strictly between positions i and
j of the instruction list. -/
def betweenCount (l : List Instruction) (i j : Nat) (c : Instruction) : Nat :=
  ((l.take j).drop (i + 1)).count c

/-- Depth-generalized forward match: at depth d, position j holds a
backward-jump instruction and the strictly-between backward jumps exceed
the strictly-between forward jumps by exactly d. -/
def isForwardMatchD (l : List Instruction) (i depth j : Nat) : Prop :=
  i < j ∧ j < l.length ∧ l.get? j = some .JumpBackwardsIfNonzero ∧
    betweenCount l i j .JumpBackwardsIfNonzero = betweenCount l i j .JumpForwardsIfZero + depth

instance (l : List Instruction) (i depth j : Nat) : Decidable (isForwardMatchD l i depth j) := by
  unfold isForwardMatchD
  infer_instance

/-- The matching closing bracket of the bracket at i, at depth 0. -/
def isForwardMatch (l : List Instruction) (i j : Nat) : Prop :=
  isForwardMatchD l i 0 j

instance (l : List Instruction) (i j : Nat) : Decidable (isForwardMatch l i j) := by
  unfold isForwardMatch
  infer_instance

/-! Helper lemmas about the banded cell store. -/

theorem resizedAt_min (c : RuntimeContextT) (i : Nat) :
    (c.resizedAt i).min_cell_value = c.min_cell_value := by
  unfold RuntimeContextT.resizedAt
  split <;> rfl

theorem resizedAt_max (c : RuntimeContextT) (i : Nat) :
    (c.resizedAt i).max_cell_value = c.max_cell_value := by
  unfold RuntimeContextT.resizedAt
  split <;> rfl

theorem resizedAt_length (c : RuntimeContextT) (i : Nat) :
    i < (c.resizedAt i).data.length := by
  unfold RuntimeContextT.resizedAt
  split
  · next h => simp only [List.length_append, List.length_replicate]; omega
  · next h => omega

theorem resizedAt_getD (c : RuntimeContextT) (i : Nat) :
    (c.resizedAt i).data.getD i 0 = c.readCellAt i := by
  unfold RuntimeContextT.resizedAt RuntimeContextT.readCellAt
  split
  · next h =>
    simp only [List.getD_eq_getElem?_getD, List.getElem?_append_right h,
      List.getElem?_replicate]
    have : i - c.data.length < i + 1 - c.data.length := by omega
    simp [this]
  · next h => simp

theorem resizedAt_of_lt (c : RuntimeContextT) (i : Nat) (h : i < c.data.length) :
    c.resizedAt i = c := by
  unfold RuntimeContextT.resizedAt
  split
  · omega
  · rfl

theorem readCellAt_mk_set (d : List Nat) (dp minv maxv i v : Nat) (h : i < d.length) :
    (RuntimeContextT.mk (d.set i v) dp minv maxv).readCellAt i = v := by
  unfold RuntimeContextT.readCellAt
  simp only [List.length_set]
  rw [if_neg (by omega)]
  simp [List.getElem?_set_self h]

theorem readCellAt_incrementCell (c : RuntimeContextT) (i : Nat) :
    (c.incrementCell i).readCellAt i =
      if c.max_cell_value ≤ c.readCellAt i then c.min_cell_value else c.readCellAt i + 1 := by
  simp only [RuntimeContextT.incrementCell]
  rw [readCellAt_mk_set _ _ _ _ _ _ (resizedAt_length c i), resizedAt_getD]

theorem readCellAt_decrementCell (c : RuntimeContextT) (i : Nat) :
    (c.decrementCell i).readCellAt i =
      if c.readCellAt i ≤ c.min_cell_value then c.max_cell_value else c.readCellAt i - 1 := by
  simp only [RuntimeContextT.decrementCell]
  rw [readCellAt_mk_set _ _ _ _ _ _ (resizedAt_length c i), resizedAt_getD]

theorem incrementCell_min (c : RuntimeContextT) (i : Nat) :
    (c.incrementCell i).min_cell_value = c.min_cell_value := by
  simp only [RuntimeContextT.incrementCell]
  exact resizedAt_min c i

theorem incrementCell_max (c : RuntimeContextT) (i : Nat) :
    (c.incrementCell i).max_cell_value = c.max_cell_value := by
  simp only [RuntimeContextT.incrementCell]
  exact resizedAt_max c i

/-! Claims about the execution engine: golden trace, backward search,
band-wrapping arithmetic. -/

/-- Claim C1 (counterexample): running the loaded program of source
++[>+<-] with u8 cells (band 0..255) from an all-zero store leaves the
value 2 — not 1 — at address 1, and is still running after 7 executed
instructions (the count 2 + 2*(initial cell value) + 1 = 7 claimed by the
spec); stepping further does not change the store. -/
theorem claim1_golden_trace_cx :
    (runFuel 20 (initialMachine "++[>+<-]".data)).map (fun m => m.cellAt 1) = some 2 ∧
    (runFuel 7 (initialMachine "++[>+<-]".data)).map
      (fun m => m.script.hasRemainingInstructions) = some true :=
  ⟨by decide, by decide⟩

/-- Claim C1 (amended): the golden trace of ++[>+<-] from an all-zero store
halts after exactly 13 executed instructions — 2 increments, 1 loop-entry
check, and 2 iterations of 5 instructions each, i.e. 2 + 1 + 5*(initial
cell value 2) — leaving 0 at address 0 and the transferred count 2 at
address 1; after 12 instructions it is still running. -/
theorem claim1_golden_trace :
    (runFuel 13 (initialMachine "++[>+<-]".data)).map
      (fun m => (m.script.hasRemainingInstructions, m.script.cycles, m.cellAt 0, m.cellAt 1))
      = some (false, 13, 0, 2) ∧
    (runFuel 12 (initialMachine "++[>+<-]".data)).map
      (fun m => m.script.hasRemainingInstructions) = some true :=
  ⟨by decide, by decide⟩

/-- Claim C2: executing the program +] from an all-zero store runs the
increment fine, but the backward bracket search of the closing bracket
(nonzero cell, no matching opening bracket) underflows the usize
instruction pointer when it reaches 0 — the loop guard of jump_backwards is
vacuously true for usize — so the second step panics (none) instead of
settling the pointer at the lower boundary. -/
theorem claim2_backward_underflow :
    (runFuel 1 (initialMachine "+]".data)).isSome = true ∧
    runFuel 2 (initialMachine "+]".data) = none :=
  ⟨by decide, by decide⟩

/-- Claim C5: whenever the current instruction of the banded engine is the
cell increment, the step delegates to CellStore's band-wrapping
increment_cell at data_pointer (then advances the pointer and counts the
cycle); in particular a cell holding max_cell_value wraps to
min_cell_value, whatever the band — and symmetrically for the decrement.
The engine paired with the banded store is modelled from spec section 4.2
(see stepBanded); increment_cell/decrement_cell are from runtime/context.rs. -/
theorem claim5_band_wrap (m : BandedMachine) :
    (m.instruction = some .IncrementData →
      stepBanded m = some { m with
        ctx := m.ctx.incrementCell m.ctx.data_pointer
        instruction_pointer := m.instruction_pointer + 1
        cycles := m.cycles + 1 } ∧
      (m.ctx.readCellAt m.ctx.data_pointer = m.ctx.max_cell_value →
        (m.ctx.incrementCell m.ctx.data_pointer).readCellAt m.ctx.data_pointer
          = m.ctx.min_cell_value)) ∧
    (m.instruction = some .DecrementData →
      stepBanded m = some { m with
        ctx := m.ctx.decrementCell m.ctx.data_pointer
        instruction_pointer := m.instruction_pointer + 1
        cycles := m.cycles + 1 } ∧
      (m.ctx.readCellAt m.ctx.data_pointer = m.ctx.min_cell_value →
        (m.ctx.decrementCell m.ctx.data_pointer).readCellAt m.ctx.data_pointer
          = m.ctx.max_cell_value)) := by
  constructor
  · intro h
    refine ⟨by simp [stepBanded, h], ?_⟩
    intro hv
    rw [readCellAt_incrementCell, hv, if_pos le_rfl]
  · intro h
    refine ⟨by simp [stepBanded, h], ?_⟩
    intro hv
    rw [readCellAt_decrementCell, hv, if_pos le_rfl]

/-- Claim C5 (witness): a one-instruction banded machine with band 0..5 —
narrower than the native range of the 64-bit cell type — and the cell at
the data pointer holding 5 steps to the incremented store, and the cell
wraps to the band minimum 0. -/
theorem claim5_band_wrap_witness :
    stepBanded ⟨[⟨.IncrementData, 0⟩], 0, 0, ⟨[5], 0, 0, 5⟩, [], []⟩ = some
      { (⟨[⟨.IncrementData, 0⟩], 0, 0, ⟨[5], 0, 0, 5⟩, [], []⟩ : BandedMachine) with
        ctx := RuntimeContextT.incrementCell ⟨[5], 0, 0, 5⟩ 0
        instruction_pointer := 1
        cycles := 1 } ∧
    (RuntimeContextT.incrementCell ⟨[5], 0, 0, 5⟩ 0).readCellAt 0 = 0 := by
  have h := (claim5_band_wrap ⟨[⟨.IncrementData, 0⟩], 0, 0, ⟨[5], 0, 0, 5⟩, [], []⟩).1 (by decide)
  exact ⟨h.1, h.2 (by decide)⟩

theorem incrementCell_iter_value (c : RuntimeContextT) (i : Nat)
    (h : c.min_cell_value ≤ c.max_cell_value) (h0 : c.readCellAt i = c.min_cell_value) :
    ∀ k, k ≤ c.max_cell_value - c.min_cell_value →
      ((fun x => RuntimeContextT.incrementCell x i)^[k] c).readCellAt i = c.min_cell_value + k ∧
      ((fun x => RuntimeContextT.incrementCell x i)^[k] c).min_cell_value = c.min_cell_value ∧
      ((fun x => RuntimeContextT.incrementCell x i)^[k] c).max_cell_value = c.max_cell_value := by
  intro k
  induction k with
  | zero => intro _; simpa using h0
  | succ k ih =>
    intro hk
    obtain ⟨hv, hmin, hmax⟩ := ih (by omega)
    refine ⟨?_, ?_, ?_⟩
    · rw [Function.iterate_succ_apply', readCellAt_incrementCell, hv, hmin, hmax,
        if_neg (by omega)]
      omega
    · rw [Function.iterate_succ_apply', incrementCell_min, hmin]
    · rw [Function.iterate_succ_apply', incrementCell_max, hmax]

/-- Claim C7: wraparound closure — for a band with min at most max, a cell
reading min is read as min again after exactly (max - min + 1) applications
of the wrapping increment at its index. -/
theorem claim7_wraparound_closure (c : RuntimeContextT) (i : Nat)
    (h : c.min_cell_value ≤ c.max_cell_value) (h0 : c.readCellAt i = c.min_cell_value) :
    ((fun x => RuntimeContextT.incrementCell x i)^[c.max_cell_value - c.min_cell_value + 1]
      c).readCellAt i = c.min_cell_value := by
  obtain ⟨hv, hmin, hmax⟩ :=
    incrementCell_iter_value c i h h0 (c.max_cell_value - c.min_cell_value) le_rfl
  rw [Function.iterate_succ_apply', readCellAt_incrementCell, hv, hmin, hmax,
    if_pos (by omega)]

/-- Claim C7 (witness): with band 5..7 and the cell at index 0 holding 5,
three increments (7 - 5 + 1) return the cell to 5. -/
theorem claim7_wraparound_closure_witness :
    (5 : Nat) ≤ 7 ∧ (RuntimeContextT.mk [5] 0 5 7).readCellAt 0 = 5 ∧
    ((fun x => RuntimeContextT.incrementCell x 0)^[3] (RuntimeContextT.mk [5] 0 5 7)).readCellAt 0
      = 5 :=
  ⟨by decide, by decide, claim7_wraparound_closure ⟨[5], 0, 5, 7⟩ 0 (by decide) (by decide)⟩

/-! Helper lemmas for the fix_cell (clamp) loops. -/

theorem fixSubLoop_sound (maxv diff : Nat) (hd : 0 < diff) (hdm : diff ≤ maxv) :
    ∀ fuel v, v < fuel →
      ∃ w, fixSubLoop maxv diff fuel v = some w ∧ w ≤ maxv ∧
        (v ≤ maxv → w = v) ∧ (maxv < v → maxv - diff < w) := by
  intro fuel
  induction fuel with
  | zero => intro v hv; exact absurd hv (by omega)
  | succ fuel ih =>
    intro v hv
    unfold fixSubLoop
    by_cases hc : maxv < v
    · rw [if_pos hc]
      obtain ⟨w, hw, h1, h2, h3⟩ := ih (v - diff) (by omega)
      refine ⟨w, hw, h1, by omega, ?_⟩
      intro _
      by_cases hc2 : maxv < v - diff
      · exact h3 hc2
      · have := h2 (by omega); omega
    · rw [if_neg hc]
      exact ⟨v, rfl, by omega, fun _ => rfl, by omega⟩

theorem fixAddLoop_sound (minv diff : Nat) (hd : 0 < diff) :
    ∀ fuel v, minv - v < fuel →
      ∃ u, fixAddLoop minv diff fuel v = some u ∧ minv ≤ u ∧
        (minv ≤ v → u = v) ∧ (v < minv → u < minv + diff) := by
  intro fuel
  induction fuel with
  | zero => intro v hv; exact absurd hv (by omega)
  | succ fuel ih =>
    intro v hv
    unfold fixAddLoop
    by_cases hc : v < minv
    · rw [if_pos hc]
      by_cases hc2 : v + diff < minv
      · obtain ⟨u, hu, h1, h2, h3⟩ := ih (v + diff) (by omega)
        exact ⟨u, hu, h1, by omega, fun _ => h3 hc2⟩
      · obtain ⟨u, hu, h1, h2, h3⟩ := ih (v + diff) (by omega)
        have := h2 (by omega)
        exact ⟨u, hu, h1, by omega, fun _ => by omega⟩
    · rw [if_neg hc]
      exact ⟨v, rfl, by omega, fun _ => rfl, by omega⟩

theorem fixVal_sound (minv maxv v : Nat) (h : minv < maxv) :
    ∃ w, fixVal minv maxv v = some w ∧ minv ≤ w ∧ w ≤ maxv ∧
      (minv ≤ v → v ≤ maxv → w = v) := by
  obtain ⟨w, hw, hw1, hw2, hw3⟩ :=
    fixSubLoop_sound maxv (maxv - minv) (by omega) (by omega) (v + 1) v (by omega)
  obtain ⟨u, hu, hu1, hu2, hu3⟩ :=
    fixAddLoop_sound minv (maxv - minv) (by omega) (minv + 1) w (by omega)
  refine ⟨u, ?_, hu1, ?_, ?_⟩
  · unfold fixVal
    rw [if_neg (by omega), hw]
    exact hu
  · by_cases hcase : minv ≤ w
    · rw [hu2 hcase]; exact hw1
    · have := hu3 (by omega); omega
  · intro h1 h2
    have hwv : w = v := hw2 h2
    rw [hu2 (by omega), hwv]

theorem fixVal_inBand (minv maxv w : Nat) (h1 : minv ≤ w) (h2 : w ≤ maxv) :
    fixVal minv maxv w = some w := by
  unfold fixVal
  rw [if_neg (by omega)]
  have hs : fixSubLoop maxv (maxv - minv) (w + 1) w = some w := by
    unfold fixSubLoop
    rw [if_neg (by omega)]
  have ha : fixAddLoop minv (maxv - minv) (minv + 1) w = some w := by
    unfold fixAddLoop
    rw [if_neg (by omega)]
  rw [hs]
  exact ha

/-- Claim C8 (counterexample): for the degenerate band 0..0, clamping a
cell holding 1 never produces a value at all — the loop subtracts the band
width 0 forever — so clamp applied twice cannot produce the value clamp
produces once. -/
theorem claim8_clamp_idempotent_cx :
    RuntimeContextT.fixCell ⟨[1], 0, 0, 0⟩ 0 = none := by
  decide

/-- Claim C8 (amended): for every band with min strictly below max, clamp
terminates, clamping twice yields the same cell value as clamping once,
and a value already inside the band is left untouched.  For a degenerate
band (min = max) the clamp loop diverges on any out-of-band value. -/
theorem claim8_clamp_idempotent (c : RuntimeContextT) (i : Nat)
    (h : c.min_cell_value < c.max_cell_value) :
    ∃ c' c'', c.fixCell i = some c' ∧ c'.fixCell i = some c'' ∧
      c''.readCellAt i = c'.readCellAt i ∧
      (c.min_cell_value ≤ c.readCellAt i → c.readCellAt i ≤ c.max_cell_value →
        c'.readCellAt i = c.readCellAt i) := by
  obtain ⟨w, hw, h1, h2, h3⟩ := fixVal_sound c.min_cell_value c.max_cell_value (c.readCellAt i) h
  have hfix1 : c.fixCell i = some { c.resizedAt i with data := (c.resizedAt i).data.set i w } := by
    simp only [RuntimeContextT.fixCell]
    rw [resizedAt_getD, hw]
  set c' : RuntimeContextT := { c.resizedAt i with data := (c.resizedAt i).data.set i w } with hc'
  have hlen : i < c'.data.length := by
    rw [hc']
    simpa using resizedAt_length c i
  have hread : c'.readCellAt i = w := by
    rw [hc']
    exact readCellAt_mk_set _ _ _ _ _ _ (resizedAt_length c i)
  have hmin' : c'.min_cell_value = c.min_cell_value := by
    rw [hc']; exact resizedAt_min c i
  have hmax' : c'.max_cell_value = c.max_cell_value := by
    rw [hc']; exact resizedAt_max c i
  have hgetD : c'.data.getD i 0 = w := by
    have := hread
    unfold RuntimeContextT.readCellAt at this
    rwa [if_neg (by omega)] at this
  have hfix2 : c'.fixCell i = some { c' with data := c'.data.set i w } := by
    simp only [RuntimeContextT.fixCell]
    rw [resizedAt_of_lt c' i hlen, hgetD, hmin', hmax', fixVal_inBand _ _ _ h1 h2]
  refine ⟨c', ({ c' with data := c'.data.set i w } : RuntimeContextT), hfix1, hfix2, ?_, ?_⟩
  · rw [readCellAt_mk_set _ _ _ _ _ _ hlen, hread]
  · intro hb1 hb2
    rw [hread]
    exact h3 hb1 hb2

/-- Claim C8 (witness): with band 0..5 and the cell at index 0 holding the
out-of-band value 9, clamp produces a value, clamping again reproduces it,
and the in-band clause holds vacuously. -/
theorem claim8_clamp_idempotent_witness :
    ∃ c' c'', RuntimeContextT.fixCell ⟨[9], 0, 0, 5⟩ 0 = some c' ∧
      c'.fixCell 0 = some c'' ∧ c''.readCellAt 0 = c'.readCellAt 0 ∧
      ((0 : Nat) ≤ (RuntimeContextT.mk [9] 0 0 5).readCellAt 0 →
        (RuntimeContextT.mk [9] 0 0 5).readCellAt 0 ≤ 5 →
        c'.readCellAt 0 = (RuntimeContextT.mk [9] 0 0 5).readCellAt 0) :=
  claim8_clamp_idempotent ⟨[9], 0, 0, 5⟩ 0 (by decide)

/-! Claims about the command tokenizer. -/

/-- Claim C4 (counterexample): tokenizing the exact string
set data(5) = 0x1F with autocomplete disabled does not yield a Parsed
SetData — the token data(5) matches no target variable, so the result is
CannotContinue with the variable segment marked Invalid. -/
theorem claim4_set_data_roundtrip_cx :
    parseCommand envEmpty "set data(5) = 0x1F".data false =
      some (.CannotContinue
        [⟨"set data(5) = 0x1F".data, 0, 3, .Ok⟩,
         ⟨"set data(5) = 0x1F".data, 4, 11,
          .Invalid (some ("unknown variable " ++ sq ++ "data(5)" ++ sq))⟩,
         ⟨"set data(5) = 0x1F".data, 12, 18, .Ignored⟩]) := by
  decide

/-- Claim C4 (amended): the index is written as its own token — tokenizing
set data 5 = 0x1F with autocomplete disabled yields Parsed carrying
SetData with index some 5 and value 31; the parenthesized form is rejected
as an unknown variable. -/
theorem claim4_set_data_roundtrip :
    parseCommand envEmpty "set data 5 = 0x1F".data false =
      some (.Parsed
        [⟨"set data 5 = 0x1F".data, 0, 3, .Ok⟩,
         ⟨"set data 5 = 0x1F".data, 4, 8, .Ok⟩,
         ⟨"set data 5 = 0x1F".data, 9, 10, .Ok⟩,
         ⟨"set data 5 = 0x1F".data, 11, 12, .Ok⟩,
         ⟨"set data 5 = 0x1F".data, 13, 17, .Ok⟩]
        (.SetData (some 5) 31)) := by
  decide

/-- Claim C6: the tokenizer is not total — parse_number byte-slices the
token at offsets min(2, len) and len - 1, and for the two-byte character at
the end of set ip = é the offset len - 1 falls inside the character, so the
slice panics (none) instead of returning a structured result. -/
theorem claim6_tokenizer_panic :
    parseCommand envEmpty "set ip = é".data false = none := by
  decide

/-! Helper lemmas about content and split_whitespace, used by the
quantified tokenizer claims. -/

theorem content_ok (s : List Char) : (CommandPart.ok s).content = s := by
  unfold CommandPart.ok CommandPart.content
  simp

theorem content_first_token (tok rest : List Char) (st : CommandPartState) :
    (CommandPart.mk (tok ++ rest) 0 tok.length st).content = tok := by
  unfold CommandPart.content
  simp [List.take_left]

theorem content_at_end (s : List Char) (a : Nat) (st : CommandPartState) :
    (CommandPart.mk s a s.length st).content = s.drop a := by
  unfold CommandPart.content
  rw [List.take_length]

theorem uncasedEq_congr_left {a b : List Char} (h : uncasedEq a b = true) (c : List Char) :
    uncasedEq a c = uncasedEq b c := by
  unfold uncasedEq at h ⊢
  rw [show a.map asciiLower = b.map asciiLower from by simpa using h]

theorem splitWhitespace_first_append (tok rest : List Char)
    (hws : ∀ c ∈ tok, isRustWs c = false)
    (hrest : rest = [] ∨ ∃ c r, rest = c :: r ∧ isRustWs c = true) :
    ((CommandPart.ok (tok ++ rest)).splitWhitespace).1
      = ⟨tok ++ rest, 0, tok.length, .Ok⟩ := by
  unfold CommandPart.splitWhitespace
  rw [content_ok]
  have htok : tok.findIdx? isRustWs = none := List.findIdx?_eq_none_iff.mpr hws
  rcases hrest with h | ⟨c, r, hr, hc⟩
  · subst h
    simp only [List.append_nil]
    rw [htok]
    simp [CommandPart.ok]
  · subst hr
    rw [List.findIdx?_append, htok]
    simp only [Option.none_or, List.findIdx?_cons, hc, if_true, Option.map_some']
    split <;> simp [CommandPart.ok]

theorem splitWhitespace_mid (s : List Char) (a k m : Nat) (st : CommandPartState)
    (hk : (s.drop a).findIdx? isRustWs = some k)
    (hm : (s.drop (a + k)).findIdx? (fun c => !isRustWs c) = some m)
    (hlt : a + k + m < s.length) :
    (CommandPart.mk s a s.length st).splitWhitespace
      = (⟨s, a, a + k, .Ok⟩, some ⟨s, a + k + m, s.length, .Ignored⟩) := by
  unfold CommandPart.splitWhitespace
  rw [content_at_end, hk]
  have htrim : CommandPart.trimStart ⟨s, a + k, s.length, .Ignored⟩
      = ⟨s, a + k + m, s.length, .Ignored⟩ := by
    unfold CommandPart.trimStart
    rw [content_at_end, hm]
  simp only
  rw [htrim]
  rw [if_pos (by unfold CommandPart.len; simp; omega)]

theorem splitWhitespace_last (s : List Char) (a : Nat) (st : CommandPartState)
    (hk : (s.drop a).findIdx? isRustWs = none) :
    (CommandPart.mk s a s.length st).splitWhitespace = (⟨s, a, s.length, .Ok⟩, none) := by
  unfold CommandPart.splitWhitespace
  rw [content_at_end, hk]

/-- Claim C10: for every input whose leading run of non-whitespace
characters ASCII-case-insensitively equals start, pause or quit (the code's
own split: the prefix before the first whitespace character), parse_command
returns Parsed with the corresponding command and the single keyword
segment, whatever trailing text follows and whether or not autocomplete is
requested — the trailing text is discarded and produces no segment. -/
theorem claim10_keyword_trailing (env : Env) (kw : String) (cmd : Command)
    (hkw : (kw, cmd) ∈ [("start", Command.Start), ("pause", Command.Pause), ("quit", Command.Quit)])
    (tok rest : List Char) (ac : Bool)
    (hne : tok ≠ [])
    (hws : ∀ c ∈ tok, isRustWs c = false)
    (heq : uncasedEq tok kw.data = true)
    (hrest : rest = [] ∨ ∃ c r, rest = c :: r ∧ isRustWs c = true) :
    parseCommand env (tok ++ rest) ac =
      some (.Parsed [⟨tok ++ rest, 0, tok.length, .Ok⟩] cmd) := by
  have hlen1 : ¬((tok ++ rest).length < 1) := by
    cases tok with
    | nil => exact absurd rfl hne
    | cons a t => simp [List.length_append]
  have hfirst := splitWhitespace_first_append tok rest hws hrest
  have hcontent := content_first_token tok rest CommandPartState.Ok
  simp only [List.mem_cons, List.mem_singleton, Prod.mk.injEq] at hkw
  rcases hkw with ⟨h1, h2⟩ | ⟨h1, h2⟩ | ⟨h1, h2⟩ | h
  · subst h1; subst h2
    simp only [parseCommand, if_neg hlen1, hfirst, hcontent, heq, if_true]
  · subst h1; subst h2
    have hstart : uncasedEq tok "start".data = false := by
      rw [uncasedEq_congr_left heq]; decide
    simp only [parseCommand, if_neg hlen1, hfirst, hcontent, heq, hstart,
      Bool.false_eq_true, if_false, if_true]
  · subst h1; subst h2
    have hstart : uncasedEq tok "start".data = false := by
      rw [uncasedEq_congr_left heq]; decide
    have hpause : uncasedEq tok "pause".data = false := by
      rw [uncasedEq_congr_left heq]; decide
    have hset : uncasedEq tok "set".data = false := by
      rw [uncasedEq_congr_left heq]; decide
    have hload : uncasedEq tok "load".data = false := by
      rw [uncasedEq_congr_left heq]; decide
    simp only [parseCommand, if_neg hlen1, hfirst, hcontent, heq, hstart, hpause, hset, hload,
      Bool.false_eq_true, if_false, if_true]
  · exact absurd h (by simp)

/-- Claim C10 (witness): START followed by trailing text parses to the
Start command with the single keyword segment, autocomplete enabled. -/
theorem claim10_keyword_trailing_witness :
    parseCommand envEmpty ("START".data ++ (' ' :: "junk now".data)) true =
      some (.Parsed [⟨"START".data ++ (' ' :: "junk now".data), 0, 5, .Ok⟩] .Start) :=
  claim10_keyword_trailing envEmpty "start" .Start (by simp) "START".data
    (' ' :: "junk now".data) true (by decide) (by decide) (by decide)
    (.inr ⟨' ', "junk now".data, rfl, by decide⟩)

/-- Claim C9 (counterexample): parse_command returns Parsed while one of
its segments is Invalid — the malformed equals token x of set ip x 7 is
marked Invalid (expected equals) but the parse continues and succeeds with
SetInstructionPointer 7. -/
theorem claim9_parsed_invalid_cx :
    parseCommand envEmpty "set ip x 7".data false =
      some (.Parsed
        [⟨"set ip x 7".data, 0, 3, .Ok⟩,
         ⟨"set ip x 7".data, 4, 6, .Ok⟩,
         ⟨"set ip x 7".data, 7, 8,
          .Invalid (some ("expected " ++ sq ++ "=" ++ sq ++ ", got " ++ sq ++ "x" ++ sq))⟩]
        (.SetInstructionPointer 7)) := by
  decide

/-- Claim C9 (amended): Parsed only guarantees that the required value
tokens parsed, not that every segment is valid — for every number token v
parsing to n, the input set ip x v yields Parsed(SetInstructionPointer n)
whose equals-position segment carries the Invalid state (expect_equals_part
marks the segment but always continues; the load path segment behaves
alike). -/
theorem claim9_parsed_invalid (env : Env) (v : List Char) (n : Nat)
    (hv : v ≠ []) (hws : ∀ c ∈ v, isRustWs c = false)
    (hn : parseNumberCore v = some (some n)) :
    parseCommand env ("set ip x ".data ++ v) false =
      some (.Parsed
        [⟨"set ip x ".data ++ v, 0, 3, .Ok⟩,
         ⟨"set ip x ".data ++ v, 4, 6, .Ok⟩,
         ⟨"set ip x ".data ++ v, 7, 8,
          .Invalid (some ("expected " ++ sq ++ "=" ++ sq ++ ", got " ++ sq ++ "x" ++ sq))⟩]
        (.SetInstructionPointer n)) := by
  set s : List Char := "set ip x ".data ++ v with hs
  have hvpos : 0 < v.length := List.length_pos.mpr hv
  have hslen : s.length = 9 + v.length := by
    rw [hs, List.length_append, show ("set ip x ".data).length = 9 from rfl]
  have h1 : (CommandPart.ok s).splitWhitespace
      = (⟨s, 0, 3, .Ok⟩, some ⟨s, 4, s.length, .Ignored⟩) := by
    have := splitWhitespace_mid s 0 3 1 .Ok rfl rfl (by omega)
    simpa using this
  have h2 : (CommandPart.mk s 4 s.length .Ignored).splitWhitespace
      = (⟨s, 4, 6, .Ok⟩, some ⟨s, 7, s.length, .Ignored⟩) := by
    have := splitWhitespace_mid s 4 2 1 .Ignored rfl rfl (by omega)
    simpa using this
  have hm3 : (s.drop 8).findIdx? (fun c => !isRustWs c) = some 1 := by
    cases v with
    | nil => exact absurd rfl hv
    | cons c r =>
      have hc : isRustWs c = false := hws c (List.mem_cons_self c r)
      show List.findIdx? (fun c => !isRustWs c) (' ' :: c :: r) = some 1
      rw [List.findIdx?_cons]
      simp [hc, show isRustWs ' ' = true from rfl]
  have h3 : (CommandPart.mk s 7 s.length .Ignored).splitWhitespace
      = (⟨s, 7, 8, .Ok⟩, some ⟨s, 9, s.length, .Ignored⟩) := by
    have := splitWhitespace_mid s 7 1 1 .Ignored rfl hm3 (by omega)
    simpa using this
  have hwv : v.findIdx? isRustWs = none := List.findIdx?_eq_none_iff.mpr hws
  have h4 : (CommandPart.mk s 9 s.length .Ignored).splitWhitespace
      = (⟨s, 9, s.length, .Ok⟩, none) := by
    exact splitWhitespace_last s 9 .Ignored hwv
  have hcv : (CommandPart.mk s 9 s.length CommandPartState.Ok).content = v := by
    rw [content_at_end, hs]
    exact List.drop_left' rfl
  have hnum : parseNumber (CommandPart.mk s 9 s.length .Ok)
      = some (⟨s, 9, s.length, .Ok⟩, some n) := by
    unfold parseNumber
    rw [hcv, hn]
  simp only [parseCommand]
  rw [if_neg (by omega)]
  rw [h1]
  simp only
  rw [show (CommandPart.mk s 0 3 CommandPartState.Ok).content = "set".data from rfl]
  rw [show uncasedEq "set".data "start".data = false from by decide]
  rw [show uncasedEq "set".data "pause".data = false from by decide]
  rw [show uncasedEq "set".data "set".data = true from by decide]
  simp only [Bool.false_eq_true, if_false, if_true]
  simp only [parseSetCommand]
  rw [h2]
  simp only
  rw [show (CommandPart.mk s 4 6 CommandPartState.Ok).content = "ip".data from rfl]
  rw [show TargetVariable.fromStr "ip".data = some .InstructionPointer from by decide]
  simp only [parseSetOther, expectEqualsPart]
  rw [h3]
  simp only
  rw [show (CommandPart.mk s 7 8 CommandPartState.Ok).content = "x".data from rfl]
  rw [if_neg (by decide)]
  simp only [Bool.false_eq_true, if_false]
  rw [h4]
  simp only
  rw [hnum]
  rfl

/-- Claim C9 (witness): the token 5 parses to 5, so set ip x 5 yields a
Parsed SetInstructionPointer 5 carrying the Invalid equals-position
segment. -/
theorem claim9_parsed_invalid_witness :
    parseCommand envEmpty ("set ip x ".data ++ "5".data) false =
      some (.Parsed
        [⟨"set ip x ".data ++ "5".data, 0, 3, .Ok⟩,
         ⟨"set ip x ".data ++ "5".data, 4, 6, .Ok⟩,
         ⟨"set ip x ".data ++ "5".data, 7, 8,
          .Invalid (some ("expected " ++ sq ++ "=" ++ sq ++ ", got " ++ sq ++ "x" ++ sq))⟩]
        (.SetInstructionPointer 5)) :=
  claim9_parsed_invalid envEmpty "5".data 5 (by decide) (by decide) (by decide)

/-! Bracket-matching lemmas: the forward-jump loop finds the least
declaratively-matching backward jump. -/

theorem betweenCount_succ (l : List Instruction) (i j : Nat) (e c : Instruction)
    (hc : l.get? (i + 1) = some c) (hij : i + 1 < j) (hjl : j ≤ l.length) :
    betweenCount l i j e = (if e = c then 1 else 0) + betweenCount l (i + 1) j e := by
  have hi1 : i + 1 < l.length := by omega
  have hlt : i + 1 < (l.take j).length := by rw [List.length_take]; omega
  unfold betweenCount
  rw [List.drop_eq_getElem_cons hlt, List.count_cons]
  have h2 : l[i + 1] = c := by
    have hq : l[i + 1]? = some l[i + 1] := List.getElem?_eq_getElem hi1
    rw [← List.get?_eq_getElem?, hc] at hq
    exact (Option.some_inj.mp hq).symm
  simp only [List.getElem_take]
  rw [h2]
  by_cases he : e = c
  · simp [he]
    omega
  · simp [beq_iff_eq, he]
    exact fun hh => he hh.symm

theorem betweenCount_self_succ (l : List Instruction) (i : Nat) (c : Instruction) :
    betweenCount l i (i + 1) c = 0 := by
  unfold betweenCount
  rw [List.drop_eq_nil_of_le]
  · rfl
  · rw [List.length_take]; omega

theorem matchD_shift_key (l : List Instruction) (i j d d' : Nat) (c : Instruction)
    (hc : l.get? (i + 1) = some c) (hij : i + 1 < j) (hjl : j ≤ l.length)
    (hd : if c = .JumpBackwardsIfNonzero then d = d' + 1
          else if c = .JumpForwardsIfZero then d + 1 = d' else d = d') :
    (betweenCount l i j .JumpBackwardsIfNonzero = betweenCount l i j .JumpForwardsIfZero + d)
    ↔ (betweenCount l (i + 1) j .JumpBackwardsIfNonzero
        = betweenCount l (i + 1) j .JumpForwardsIfZero + d') := by
  have hcl := betweenCount_succ l i j .JumpBackwardsIfNonzero c hc hij hjl
  have hop := betweenCount_succ l i j .JumpForwardsIfZero c hc hij hjl
  by_cases hc1 : c = .JumpBackwardsIfNonzero
  · subst hc1
    rw [if_pos rfl] at hd
    simp at hcl hop
    omega
  · by_cases hc2 : c = .JumpForwardsIfZero
    · subst hc2
      rw [if_neg (by decide), if_pos rfl] at hd
      simp at hcl hop
      omega
    · have hc1s : Instruction.JumpBackwardsIfNonzero ≠ c := fun hh => hc1 hh.symm
      have hc2s : Instruction.JumpForwardsIfZero ≠ c := fun hh => hc2 hh.symm
      rw [if_neg hc1, if_neg hc2] at hd
      rw [if_neg hc1s] at hcl
      rw [if_neg hc2s] at hop
      omega

theorem matchD_shift (l : List Instruction) (i j d d' : Nat) (c : Instruction)
    (hc : l.get? (i + 1) = some c) (hij : i + 1 < j)
    (hd : if c = .JumpBackwardsIfNonzero then d = d' + 1
          else if c = .JumpForwardsIfZero then d + 1 = d' else d = d') :
    (isForwardMatchD l i d j ↔ isForwardMatchD l (i + 1) d' j) := by
  unfold isForwardMatchD
  constructor
  · rintro ⟨h1, h2, h3, h4⟩
    exact ⟨hij, h2, h3, (matchD_shift_key l i j d d' c hc hij (by omega) hd).mp h4⟩
  · rintro ⟨h1, h2, h3, h4⟩
    exact ⟨by omega, h2, h3, (matchD_shift_key l i j d d' c hc hij (by omega) hd).mpr h4⟩

theorem jumpForwardsGo_finds (l : List Instruction) :
    ∀ fuel i d j, l.length - i ≤ fuel →
      isForwardMatchD l i d j →
      (∀ k, isForwardMatchD l i d k → j ≤ k) →
      jumpForwardsGo l fuel i d = (true, j) := by
  intro fuel
  induction fuel with
  | zero =>
    intro i d j hf hm hmin
    obtain ⟨h1, h2, _, _⟩ := hm
    exact absurd h2 (by omega)
  | succ fuel ih =>
    intro i d j hf hm hmin
    obtain ⟨h1, h2, h3, h4⟩ := hm
    unfold jumpForwardsGo
    cases hget : l.get? (i + 1) with
    | none =>
      have hlen := List.get?_eq_none.mp hget
      exact absurd h2 (by omega)
    | some c =>
      simp only []
      have hi1 : i + 1 < l.length := by
        by_contra hcon
        rw [List.get?_eq_none.mpr (by omega)] at hget
        exact Option.noConfusion hget
      by_cases hc1 : c = .JumpBackwardsIfNonzero
      · subst hc1
        rw [if_pos rfl]
        by_cases hd0 : d = 0
        · subst hd0
          rw [if_pos rfl]
          have hm1 : isForwardMatchD l i 0 (i + 1) :=
            ⟨by omega, hi1, hget, by rw [betweenCount_self_succ, betweenCount_self_succ]⟩
          have hj1 : j ≤ i + 1 := hmin (i + 1) hm1
          have hje : j = i + 1 := by omega
          rw [hje]
        · rw [if_neg hd0]
          have hij : i + 1 < j := by
            rcases Nat.lt_or_ge (i + 1) j with hlt | hge
            · exact hlt
            · have hj1 : j = i + 1 := by omega
              subst hj1
              rw [betweenCount_self_succ, betweenCount_self_succ] at h4
              exact absurd h4.symm (by omega)
          have hshift := matchD_shift l i j d (d - 1) .JumpBackwardsIfNonzero hget hij
            (by rw [if_pos rfl]; omega)
          apply ih (i + 1) (d - 1) j (by omega)
          · exact hshift.mp ⟨h1, h2, h3, h4⟩
          · intro k hk
            have hshiftk := matchD_shift l i k d (d - 1) .JumpBackwardsIfNonzero hget hk.1
              (by rw [if_pos rfl]; omega)
            exact hmin k (hshiftk.mpr hk)
      · by_cases hc2 : c = .JumpForwardsIfZero
        · subst hc2
          rw [if_neg (by decide), if_pos rfl]
          have hij : i + 1 < j := by
            rcases Nat.lt_or_ge (i + 1) j with hlt | hge
            · exact hlt
            · have hj1 : j = i + 1 := by omega
              subst hj1
              rw [hget] at h3
              simp at h3
          have hshift := matchD_shift l i j d (d + 1) .JumpForwardsIfZero hget hij
            (by rw [if_neg (by decide), if_pos rfl])
          apply ih (i + 1) (d + 1) j (by omega)
          · exact hshift.mp ⟨h1, h2, h3, h4⟩
          · intro k hk
            have hshiftk := matchD_shift l i k d (d + 1) .JumpForwardsIfZero hget hk.1
              (by rw [if_neg (by decide), if_pos rfl])
            exact hmin k (hshiftk.mpr hk)
        · rw [if_neg hc1, if_neg hc2]
          have hij : i + 1 < j := by
            rcases Nat.lt_or_ge (i + 1) j with hlt | hge
            · exact hlt
            · have hj1 : j = i + 1 := by omega
              subst hj1
              rw [hget] at h3
              exact absurd (Option.some_inj.mp h3) hc1
          have hshift := matchD_shift l i j d d c hget hij
            (by rw [if_neg hc1, if_neg hc2])
          apply ih (i + 1) d j (by omega)
          · exact hshift.mp ⟨h1, h2, h3, h4⟩
          · intro k hk
            have hshiftk := matchD_shift l i k d d c hget hk.1
              (by rw [if_neg hc1, if_neg hc2])
            exact hmin k (hshiftk.mpr hk)


/-- Claim C3 (amended): for every instruction list whose instruction at i is
the forward jump and which contains a matching backward jump (a position j
holding the backward-jump instruction with the strictly-between brackets
balanced), the forward search succeeds with the instruction pointer landed
ON the matching backward jump — the least such j, i.e. the first
backward-jump instruction encountered at depth 0 — not just past it; the
next step then executes that backward jump itself, which (the cell still
being zero) falls through, so the step after that resumes just past it. -/
theorem claim3_forward_search (l : List Instruction) (i : Nat)
    (h0 : l.get? i = some .JumpForwardsIfZero)
    (hex : ∃ j, isForwardMatch l i j) :
    ∃ j, isForwardMatch l i j ∧ (∀ k, isForwardMatch l i k → j ≤ k) ∧
      jumpForwardsAux l i 0 = (true, j) ∧
      l.get? j = some .JumpBackwardsIfNonzero ∧
      (∀ m : MachineState, instrsOf m.script = l → m.script.instruction_pointer = i →
        m.ctx.readCell = 0 →
        ∃ m', executeInstruction m = some m' ∧
          m'.script.instruction_pointer = j ∧ m'.ctx = m.ctx ∧
          ∃ m'', executeInstruction m' = some m'' ∧
            m''.script.instruction_pointer = j + 1) := by
  have hspec : isForwardMatch l i (Nat.find hex) := Nat.find_spec hex
  have hmin : ∀ k, isForwardMatch l i k → Nat.find hex ≤ k := fun k hk => Nat.find_min' hex hk
  have hrun : jumpForwardsAux l i 0 = (true, Nat.find hex) := by
    unfold jumpForwardsAux
    exact jumpForwardsGo_finds l (l.length - i) i 0 (Nat.find hex) le_rfl hspec hmin
  refine ⟨Nat.find hex, hspec, hmin, hrun, hspec.2.2.1, ?_⟩
  intro m hl hip hcell
  have hinstr : m.script.instruction = some .JumpForwardsIfZero := by
    unfold Script.instruction
    have hh : (instrsOf m.script).get? i = some .JumpForwardsIfZero := by
      rw [hl]; exact h0
    unfold instrsOf at hh
    rw [List.get?_map] at hh
    rw [hip]
    exact hh
  have hstep1 : executeInstruction m = some { m with
      script := { m.script with
        instruction_pointer := Nat.find hex
        cycles := m.script.cycles + 1 } } := by
    simp only [executeInstruction, hinstr]
    rw [if_pos hcell, hl, hip, hrun]
    rfl
  have hinstr2 : ({ m with
      script := { m.script with
        instruction_pointer := Nat.find hex
        cycles := m.script.cycles + 1 } } : MachineState).script.instruction
      = some .JumpBackwardsIfNonzero := by
    unfold Script.instruction
    have hh : (instrsOf m.script).get? (Nat.find hex) = some .JumpBackwardsIfNonzero := by
      rw [hl]; exact hspec.2.2.1
    unfold instrsOf at hh
    rw [List.get?_map] at hh
    exact hh
  have hstep2 : executeInstruction { m with
      script := { m.script with
        instruction_pointer := Nat.find hex
        cycles := m.script.cycles + 1 } } = some { m with
      script := { m.script with
        instruction_pointer := Nat.find hex + 1
        cycles := m.script.cycles + 1 + 1 } } := by
    simp only [executeInstruction, hinstr2]
    rw [if_pos hcell]
    rfl
  refine ⟨_, hstep1, rfl, rfl, _, hstep2, rfl⟩


/-- Claim C3 (counterexample): for the program [] with the cell zero, one
step lands the instruction pointer at 1 — ON the matching backward jump,
whose instruction is about to be executed — not just past it (index 2);
only the second step, which executes that backward jump, reaches 2. -/
theorem claim3_forward_search_cx :
    (runFuel 1 (initialMachine "[]".data)).map
      (fun m => (m.script.instruction_pointer, m.script.instruction))
      = some (1, some .JumpBackwardsIfNonzero) ∧
    (runFuel 2 (initialMachine "[]".data)).map
      (fun m => m.script.instruction_pointer) = some 2 :=
  ⟨by decide, by decide⟩

/-- Claim C3 (witness): for the two-instruction program with a forward jump
at 0 and its matching backward jump at 1, the search lands on the match. -/
theorem claim3_forward_search_witness :
    ∃ j, isForwardMatch [Instruction.JumpForwardsIfZero, Instruction.JumpBackwardsIfNonzero] 0 j ∧
      (∀ k, isForwardMatch [Instruction.JumpForwardsIfZero, Instruction.JumpBackwardsIfNonzero] 0 k
        → j ≤ k) ∧
      jumpForwardsAux [Instruction.JumpForwardsIfZero, Instruction.JumpBackwardsIfNonzero] 0 0
        = (true, j) ∧
      List.get? [Instruction.JumpForwardsIfZero, Instruction.JumpBackwardsIfNonzero] j
        = some Instruction.JumpBackwardsIfNonzero ∧
      (∀ m : MachineState,
        instrsOf m.script = [Instruction.JumpForwardsIfZero, Instruction.JumpBackwardsIfNonzero] →
        m.script.instruction_pointer = 0 → m.ctx.readCell = 0 →
        ∃ m', executeInstruction m = some m' ∧
          m'.script.instruction_pointer = j ∧ m'.ctx = m.ctx ∧
          ∃ m'', executeInstruction m' = some m'' ∧
            m''.script.instruction_pointer = j + 1) :=
  claim3_forward_search [Instruction.JumpForwardsIfZero, Instruction.JumpBackwardsIfNonzero] 0
    (by decide) ⟨1, by decide⟩

end BrainfuckVerif
